import Mathlib

/-!
Verification of the asynchronous rotating file logger of the repository
(`AsyncFileLogger` in the thread-safe logging snippet, together with its
`RotationPolicy` collaborator).

Shallow embedding.  The C++ class is modelled as a state-transition
system:

* `Item` is the queued record `{ message, ts }`; timestamps are
  abstracted to `Nat` (the wall clock captured by
  `std::chrono::system_clock::now()` at submission time).
* `RotationPolicy σ` is the virtual interface `shouldRotate` /
  `nextFileName`, made purely functional by threading an explicit policy
  state `σ` (the C++ objects are stateful function objects used only by
  the worker thread).
* The file system is an association list from file names to the list of
  lines already written (an `std::ofstream` opened in append mode
  creates the file and appends); `formatTs` abstracts the
  `localtime_r`/`strftime` rendering of a timestamp, which depends on
  the environment (locale, time zone).  `openOk` is the environment's
  verdict on whether opening a given file succeeds; a write on a stream
  that is not open is silently ignored, exactly as `operator<<` on a
  failed `std::ofstream`.
* Following the class's ownership split — the queue and `stopping` are
  the only members shared between producers and the worker, while
  `outFile`, `currentFile` and the rotation policy are touched by the
  worker alone — the consumer-exclusive members are grouped in
  `SinkState` and the shared members live in `LoggerState`.
* Each critical section of the C++ code becomes one atomic step:
  `log` (the whole body runs under `lock_guard`) and `consumeOne` (one
  iteration of the worker's inner while loop: pop the front under the
  lock, then rotate/write outside it; the unlocked part touches only
  consumer-exclusive state, so making the pair one step loses no
  observable interleaving).  `Op` traces model arbitrary interleavings
  of producer submissions and consumer iterations; `shutdownW` is the
  destructor's protocol (set `stopping` under the lock, wake the worker,
  join: the worker drains the queue, then flushes and closes the file
  and returns).
-/

/-- The queued record of `AsyncFileLogger`: `struct Item { std::string message;
std::chrono::system_clock::time_point ts; }`. -/
structure Item where
  message : String
  ts : Nat
deriving DecidableEq

/-- The `RotationPolicy` virtual interface, with its mutable internal state
made explicit as a value of type `σ`: `shouldRotate()` and `nextFileName()`
both may update that state. -/
structure RotationPolicy (σ : Type) where
  shouldRotate : σ → Bool × σ
  nextFileName : σ → String × σ

/-- Configuration and environment of one `AsyncFileLogger` instance: the
injected rotation policy, the `maxQueueSize` bound, whether opening a given
file name succeeds, and the rendering of timestamps by
`localtime_r`/`strftime`. -/
structure Config (σ : Type) where
  policy : RotationPolicy σ
  maxQueueSize : Nat
  openOk : String → Bool
  formatTs : Nat → String

/-- The consumer-exclusive part of the logger's state: the rotation
policy's internal state `pol`, the files written so far (name and lines, in
creation order), the `currentFile` name and whether `outFile` is open.
These members are never touched by producers. -/
structure SinkState (σ : Type) where
  pol : σ
  files : List (String × List String)
  currentFile : String
  fileOpen : Bool
deriving DecidableEq

/-- The lock-protected shared state plus the consumer-exclusive sink state:
the pending queue `q`, the `stopping` flag and the sink. -/
structure LoggerState (σ : Type) where
  q : List Item
  stopping : Bool
  sink : SinkState σ
deriving DecidableEq

/-- Opening a file in append mode creates it (empty) when it does not exist
and leaves its contents alone when it does. -/
def touch (files : List (String × List String)) (name : String) :
    List (String × List String) :=
  if files.any (fun e => e.1 = name) then files else files ++ [(name, [])]

/-- Appending one line to a file (creating the file when absent, as an
append-mode stream does). -/
def appendLine (files : List (String × List String)) (name line : String) :
    List (String × List String) :=
  match files with
  | [] => [(name, [line])]
  | e :: rest =>
      if e.1 = name then (e.1, e.2 ++ [line]) :: rest
      else e :: appendLine rest name line

/-- The line written for one item: `outFile << "[" << timebuf << "] " <<
it.message << "\n"`, with `timebuf` the `strftime` rendering of the
timestamp captured at submission. -/
def format (cfg : Config σ) (it : Item) : String :=
  "[" ++ cfg.formatTs it.ts ++ "] " ++ it.message

/-- `AsyncFileLogger::rotateNow`: close the current file if open, ask the
policy for the next name, and open it in append mode.  The source adds no
error handling when the open fails (`// Could add error handling if open
fails`): the stream is simply left not open. -/
def rotateNow (cfg : Config σ) (w : SinkState σ) : SinkState σ :=
  let nf := cfg.policy.nextFileName w.pol
  let opened := cfg.openOk nf.1
  { pol := nf.2, currentFile := nf.1, fileOpen := opened,
    files := if opened then touch w.files nf.1 else w.files }

/-- First step of the loop body: `if (rotationPolicy->shouldRotate())
rotateNow();` — the policy query itself may update the policy state. -/
def maybeRotate (cfg : Config σ) (w : SinkState σ) : SinkState σ :=
  let sr := cfg.policy.shouldRotate w.pol
  let w2 : SinkState σ := { w with pol := sr.2 }
  if sr.1 then rotateNow cfg w2 else w2

/-- Second step: `if (!outFile.is_open()) rotateNow();` — try opening when
no file is open. -/
def ensureOpen (cfg : Config σ) (w : SinkState σ) : SinkState σ :=
  if w.fileOpen then w else rotateNow cfg w

/-- Third step: `outFile << line << "\n"` — appends when the stream is
open; a write on a stream that is not open is silently lost. -/
def writeLine (_cfg : Config σ) (w : SinkState σ) (line : String) :
    SinkState σ :=
  if w.fileOpen then
    { w with files := appendLine w.files w.currentFile line }
  else w

/-- The unlocked part of one iteration of the worker's inner while loop,
applied to the item just popped: consult `shouldRotate`, rotate if it says
so, rotate again if no file is open, then write the formatted line. -/
def writeItem (cfg : Config σ) (w : SinkState σ) (it : Item) : SinkState σ :=
  writeLine cfg (ensureOpen cfg (maybeRotate cfg w)) (format cfg it)

/-- One full iteration of the worker's inner while loop: pop the front of
the queue under the lock, then process it outside the lock; a no-op on an
empty queue (the worker would be back waiting on the condition variable). -/
def consumeOne (cfg : Config σ) (s : LoggerState σ) : LoggerState σ :=
  match s.q with
  | [] => s
  | it :: rest =>
      { q := rest, stopping := s.stopping, sink := writeItem cfg s.sink it }

/-- `AsyncFileLogger::log`: under the queue lock, drop the incoming message
when `q.size() >= maxQueueSize` (drop-newest, plain early return), otherwise
push an `Item` carrying the submission-time timestamp. -/
def log (cfg : Config σ) (s : LoggerState σ) (msg : String) (ts : Nat) :
    LoggerState σ :=
  if s.q.length ≥ cfg.maxQueueSize then s
  else { s with q := s.q ++ [⟨msg, ts⟩] }

/-- The guard of the push in `log`: whether the submission is accepted
(the early-return drop branch not taken). -/
def logAccepts (cfg : Config σ) (s : LoggerState σ) : Bool :=
  decide (s.q.length < cfg.maxQueueSize)

/-- One atomic action of the concurrent system: a producer calling `log`
(the whole body holds the lock) or the consumer performing one iteration of
its drain loop. -/
inductive Op where
  | submit : String → Nat → Op
  | consume : Op
deriving DecidableEq

/-- The effect of one atomic action on the shared state. -/
def step (cfg : Config σ) (s : LoggerState σ) : Op → LoggerState σ
  | .submit m t => log cfg s m t
  | .consume => consumeOne cfg s

/-- Executing a trace of interleaved producer and consumer actions. -/
def exec (cfg : Config σ) (ops : List Op) (s : LoggerState σ) :
    LoggerState σ :=
  match ops with
  | [] => s
  | op :: rest => exec cfg rest (step cfg s op)

/-- Draining with explicit fuel; `consumeOne` removes exactly one queued
item per call, so `s.q.length` steps empty the queue. -/
def drainN (cfg : Config σ) (s : LoggerState σ) : Nat → LoggerState σ
  | 0 => s
  | n + 1 => drainN cfg (consumeOne cfg s) n

/-- The worker's inner while loop run to completion: keep popping and
writing until the queue is empty. -/
def drainAll (cfg : Config σ) (s : LoggerState σ) : LoggerState σ :=
  drainN cfg s s.q.length

/-- The worker's exit path once `stopping && q.empty()`: flush and close the
file (flushes are modelled as no-ops because writes land in `files`
immediately). -/
def closeFile (s : LoggerState σ) : LoggerState σ :=
  { s with sink := { s.sink with fileOpen := false } }

/-- The destructor's shutdown protocol: set `stopping` under the lock, wake
the worker and join it; the worker drains everything still queued, then
flushes and closes the file and returns. -/
def shutdownW (cfg : Config σ) (s : LoggerState σ) : LoggerState σ :=
  closeFile (drainAll cfg { s with stopping := true })

/-- The constructor: start the worker, ask the policy for the initial file
name and open it in append mode, so a sink exists before the first
submission. -/
def initState (cfg : Config σ) (p0 : σ) : LoggerState σ :=
  let nf := cfg.policy.nextFileName p0
  { q := [], stopping := false,
    sink :=
      { pol := nf.2,
        files := if cfg.openOk nf.1 then touch [] nf.1 else [],
        currentFile := nf.1, fileOpen := cfg.openOk nf.1 } }

/-- A rotation policy that never rotates and always names the same file
(policy state `Unit`). -/
def constPolicy (name : String) : RotationPolicy Unit where
  shouldRotate := fun u => (false, u)
  nextFileName := fun u => (name, u)

/-- Writing a given list of items one after the other (the worker's loop
body iterated over an explicit list). -/
def writeList (cfg : Config σ) (w : SinkState σ) : List Item → SinkState σ
  | [] => w
  | it :: rest => writeList cfg (writeItem cfg w it) rest

/-- The submissions accepted along a trace: replay the trace and keep the
submitted items for which the queue had room. -/
def acceptedF (cfg : Config σ) (s : LoggerState σ) : List Op → List Item
  | [] => []
  | .submit m t :: rest =>
      (if s.q.length < cfg.maxQueueSize then [⟨m, t⟩] else []) ++
        acceptedF cfg (step cfg s (.submit m t)) rest
  | .consume :: rest => acceptedF cfg (step cfg s .consume) rest

/-- All submissions of a trace, accepted or not, in order. -/
def submitsOf : List Op → List Item
  | [] => []
  | .submit m t :: rest => ⟨m, t⟩ :: submitsOf rest
  | .consume :: rest => submitsOf rest

/-- The concrete configuration of Scenario A: `maxQueueSize = 2`, a policy
that never rotates and always names the file `"f"`, a file system where
every open succeeds, timestamps rendered by their decimal value. -/
def cfgA : Config Unit :=
  { policy := constPolicy "f", maxQueueSize := 2,
    openOk := fun _ => true, formatTs := fun n => Nat.repr n }

/-- The Scenario A trace: three submissions with the consumer paused. -/
def opsA : List Op := [.submit "a" 1, .submit "b" 2, .submit "c" 3]

section Framing

variable {σ : Type} (cfg : Config σ)

theorem consumeOne_q_tail (s : LoggerState σ) :
    (consumeOne cfg s).q = s.q.tail := by
  unfold consumeOne
  split <;> simp_all

theorem consumeOne_stopping (s : LoggerState σ) :
    (consumeOne cfg s).stopping = s.stopping := by
  unfold consumeOne
  split <;> simp_all

theorem consumeOne_cons (s : LoggerState σ) (it : Item) (rest : List Item)
    (h : s.q = it :: rest) :
    consumeOne cfg s =
      { q := rest, stopping := s.stopping, sink := writeItem cfg s.sink it } := by
  unfold consumeOne
  split <;> simp_all

/-- The worker's per-item loop run to exhaustion equals taking the whole
queue once and writing its items in order. -/
theorem drainAll_eq_writeList (s : LoggerState σ) :
    drainAll cfg s =
      { q := [], stopping := s.stopping, sink := writeList cfg s.sink s.q } := by
  unfold drainAll
  generalize h : s.q = l
  induction l generalizing s with
  | nil => cases s; simp_all [drainN, writeList]
  | cons it rest ih =>
      simp only [List.length_cons, drainN, consumeOne_cons cfg s it rest h]
      have := ih { q := rest, stopping := s.stopping,
                   sink := writeItem cfg s.sink it } rfl
      simpa [writeList] using this

theorem drainAll_q (s : LoggerState σ) : (drainAll cfg s).q = [] := by
  rw [drainAll_eq_writeList]

end Framing

section NoRotation

variable {σ : Type} (cfg : Config σ)

theorem log_sink (s : LoggerState σ) (m : String) (t : Nat) :
    (log cfg s m t).sink = s.sink := by
  unfold log
  split <;> rfl

theorem log_stopping (s : LoggerState σ) (m : String) (t : Nat) :
    (log cfg s m t).stopping = s.stopping := by
  unfold log
  split <;> rfl

theorem exec_stopping (ops : List Op) (s : LoggerState σ) :
    (exec cfg ops s).stopping = s.stopping := by
  induction ops generalizing s with
  | nil => rfl
  | cons op rest ih =>
      cases op with
      | submit m t => rw [exec, ih, step, log_stopping]
      | consume => rw [exec, ih, step, consumeOne_stopping]

theorem appendLine_single (n ws l) :
    appendLine [(n, ws)] n l = [(n, ws ++ [l])] := by
  simp [appendLine]

theorem writeItem_noRot
    (hrot : ∀ u, (cfg.policy.shouldRotate u).1 = false)
    (w : SinkState σ) (hopen : w.fileOpen = true) (it : Item) :
    writeItem cfg w it =
      { w with pol := (cfg.policy.shouldRotate w.pol).2,
               files := appendLine w.files w.currentFile (format cfg it) } := by
  unfold writeItem writeLine ensureOpen maybeRotate
  simp [hrot w.pol, hopen]

theorem writeList_noRot
    (hrot : ∀ u, (cfg.policy.shouldRotate u).1 = false) (n0 : String) :
    ∀ (items : List Item) (w : SinkState σ) (ws : List String),
      w.fileOpen = true → w.currentFile = n0 → w.files = [(n0, ws)] →
      (writeList cfg w items).fileOpen = true ∧
      (writeList cfg w items).currentFile = n0 ∧
      (writeList cfg w items).files = [(n0, ws ++ items.map (format cfg))] := by
  intro items
  induction items with
  | nil => intro w ws h1 h2 h3; simp_all [writeList]
  | cons it rest ih =>
      intro w ws h1 h2 h3
      rw [writeList, writeItem_noRot cfg hrot w h1 it]
      have := ih { w with
          pol := (cfg.policy.shouldRotate w.pol).2
          files := appendLine w.files w.currentFile (format cfg it) }
        (ws ++ [format cfg it]) h1 h2 (by rw [h3, h2, appendLine_single])
      simpa using this

/-- Invariant of the no-rotation runs: every reachable state keeps the one
file open, and the lines already in the file followed by the formatted
pending queue are exactly the formatted accepted submissions so far. -/
theorem exec_noRot
    (hrot : ∀ u, (cfg.policy.shouldRotate u).1 = false) (n0 : String) :
    ∀ (ops : List Op) (s : LoggerState σ) (ws : List String),
      s.sink.fileOpen = true → s.sink.currentFile = n0 →
      s.sink.files = [(n0, ws)] →
      ∃ ws',
        (exec cfg ops s).sink.fileOpen = true ∧
        (exec cfg ops s).sink.currentFile = n0 ∧
        (exec cfg ops s).sink.files = [(n0, ws')] ∧
        ws' ++ ((exec cfg ops s).q.map (format cfg)) =
          ws ++ (s.q.map (format cfg)) ++
            ((acceptedF cfg s ops).map (format cfg)) := by
  intro ops
  induction ops with
  | nil =>
      intro s ws h1 h2 h3
      exact ⟨ws, h1, h2, h3, by simp [exec, acceptedF]⟩
  | cons op rest ih =>
      intro s ws h1 h2 h3
      cases op with
      | submit m t =>
          rw [exec, step]
          by_cases hfull : s.q.length ≥ cfg.maxQueueSize
          · have hlog : log cfg s m t = s := by unfold log; simp [hfull]
            obtain ⟨ws', c1, c2, c3, c4⟩ := ih s ws h1 h2 h3
            refine ⟨ws', by simpa [hlog] using c1, by simpa [hlog] using c2,
              by simpa [hlog] using c3, ?_⟩
            rw [hlog]
            rw [acceptedF]
            have hnot : ¬ s.q.length < cfg.maxQueueSize := by omega
            simp only [hnot, if_false, List.nil_append, step]
            simpa [hlog] using c4
          · have hlt : s.q.length < cfg.maxQueueSize := by omega
            have hlog : log cfg s m t = { s with q := s.q ++ [⟨m, t⟩] } := by
              unfold log; simp [hfull]
            obtain ⟨ws', c1, c2, c3, c4⟩ :=
              ih { s with q := s.q ++ [⟨m, t⟩] } ws h1 h2 h3
            refine ⟨ws', by simpa [hlog] using c1, by simpa [hlog] using c2,
              by simpa [hlog] using c3, ?_⟩
            rw [hlog, acceptedF]
            simp only [hlt, if_true, step, hlog]
            rw [c4]
            simp
      | consume =>
          rw [exec, step]
          cases hq : s.q with
          | nil =>
              have hco : consumeOne cfg s = s := by unfold consumeOne; simp [hq]
              obtain ⟨ws', c1, c2, c3, c4⟩ := ih s ws h1 h2 h3
              refine ⟨ws', by simpa [hco] using c1, by simpa [hco] using c2,
                by simpa [hco] using c3, ?_⟩
              rw [hco, acceptedF, step, hco]
              rw [hq] at c4
              simpa using c4
          | cons it tl =>
              have hco := consumeOne_cons cfg s it tl hq
              have hwi := writeItem_noRot cfg hrot s.sink h1 it
              obtain ⟨ws', c1, c2, c3, c4⟩ :=
                ih { q := tl, stopping := s.stopping,
                     sink := writeItem cfg s.sink it }
                  (ws ++ [format cfg it])
                  (by rw [hwi]; exact h1) (by rw [hwi]; exact h2)
                  (by rw [hwi]; simp [h3, h2, appendLine_single])
              refine ⟨ws', by simpa [hco] using c1, by simpa [hco] using c2,
                by simpa [hco] using c3, ?_⟩
              rw [hco, acceptedF, step, hco]
              rw [c4]
              simp [hq]

/-- Shutdown of a no-rotation logger, started from the constructor and run
through an arbitrary interleaving of submissions and consumer iterations:
the single file ends up holding exactly the formatted accepted submissions,
the file is closed, the queue is empty and the stop flag is set. -/
theorem noRot_shutdown_spec (p0 : σ)
    (hrot : ∀ u, (cfg.policy.shouldRotate u).1 = false)
    (hopen : cfg.openOk (cfg.policy.nextFileName p0).1 = true)
    (ops : List Op) :
    (shutdownW cfg (exec cfg ops (initState cfg p0))).sink.files =
      [((cfg.policy.nextFileName p0).1,
        (acceptedF cfg (initState cfg p0) ops).map (format cfg))] ∧
    (shutdownW cfg (exec cfg ops (initState cfg p0))).sink.fileOpen = false ∧
    (shutdownW cfg (exec cfg ops (initState cfg p0))).q = [] ∧
    (shutdownW cfg (exec cfg ops (initState cfg p0))).stopping = true := by
  have hinit1 : (initState cfg p0).sink.fileOpen = true := by
    simp [initState, hopen]
  have hinit2 : (initState cfg p0).sink.currentFile =
      (cfg.policy.nextFileName p0).1 := by
    simp [initState]
  have hinit3 : (initState cfg p0).sink.files =
      [((cfg.policy.nextFileName p0).1, [])] := by
    simp [initState, hopen, touch]
  obtain ⟨ws', c1, c2, c3, c4⟩ :=
    exec_noRot cfg hrot (cfg.policy.nextFileName p0).1 ops
      (initState cfg p0) [] hinit1 hinit2 hinit3
  have hq0 : (initState cfg p0).q = [] := rfl
  rw [hq0] at c4
  simp only [List.map_nil, List.nil_append, List.append_nil] at c4
  rw [shutdownW, drainAll_eq_writeList]
  have hstop : ({ exec cfg ops (initState cfg p0) with stopping := true } :
      LoggerState σ).sink = (exec cfg ops (initState cfg p0)).sink := rfl
  obtain ⟨w1, w2, w3⟩ :=
    writeList_noRot cfg hrot (cfg.policy.nextFileName p0).1
      (exec cfg ops (initState cfg p0)).q
      (exec cfg ops (initState cfg p0)).sink ws' c1 c2 c3
  refine ⟨?_, by simp [closeFile], by simp [closeFile], by simp [closeFile]⟩
  simp only [closeFile]
  rw [w3, c4]

end NoRotation

/-- C1: after `shutdown()` (invoked by destruction) returns, every item that
was successfully enqueued before shutdown has been written to the sink — the
single file holds exactly the formatted accepted submissions in order — and
the sink is flushed and closed (`fileOpen = false`, queue empty, the stop
flag set: the consumer's one-shot exit path has run, so no further writes
are possible).  Stated for any rotation policy that never asks to rotate and
any interleaving of submissions and consumer iterations. -/
theorem c1_graceful_drain {σ : Type} (cfg : Config σ) (p0 : σ)
    (hrot : ∀ u, (cfg.policy.shouldRotate u).1 = false)
    (hopen : cfg.openOk (cfg.policy.nextFileName p0).1 = true)
    (ops : List Op) :
    (shutdownW cfg (exec cfg ops (initState cfg p0))).sink.files =
      [((cfg.policy.nextFileName p0).1,
        (acceptedF cfg (initState cfg p0) ops).map (format cfg))] ∧
    (shutdownW cfg (exec cfg ops (initState cfg p0))).sink.fileOpen = false ∧
    (shutdownW cfg (exec cfg ops (initState cfg p0))).q = [] ∧
    (shutdownW cfg (exec cfg ops (initState cfg p0))).stopping = true :=
  noRot_shutdown_spec cfg p0 hrot hopen ops

/-- C1 witness: Scenario A's configuration and trace, instantiated. -/
theorem c1_graceful_drain_witness :
    (shutdownW cfgA (exec cfgA opsA (initState cfgA ()))).sink.files =
      [("f", ["[1] a", "[2] b"])] ∧
    (shutdownW cfgA (exec cfgA opsA (initState cfgA ()))).sink.fileOpen = false ∧
    (shutdownW cfgA (exec cfgA opsA (initState cfgA ()))).q = [] ∧
    (shutdownW cfgA (exec cfgA opsA (initState cfgA ()))).stopping = true :=
  c1_graceful_drain cfgA () (fun _ => rfl) rfl opsA

/-- C2: under every interleaving of submissions and consumer iterations,
the queue never exceeds `maxQueueSize`: from any state within the bound
(in particular the constructor's empty queue), every reachable state is
within the bound. -/
theorem c2_bounded_queue {σ : Type} (cfg : Config σ) (s : LoggerState σ)
    (ops : List Op) (h : s.q.length ≤ cfg.maxQueueSize) :
    (exec cfg ops s).q.length ≤ cfg.maxQueueSize := by
  induction ops generalizing s with
  | nil => exact h
  | cons op rest ih =>
      rw [exec]
      apply ih
      cases op with
      | submit m t =>
          rw [step]
          unfold log
          split
          · exact h
          · simp only [List.length_append, List.length_cons, List.length_nil]
            omega
      | consume =>
          rw [step, consumeOne_q_tail]
          calc s.q.tail.length ≤ s.q.length := by
                cases s.q <;> simp
            _ ≤ cfg.maxQueueSize := h

/-- C2 witness: three submissions against capacity 2 never push the queue
beyond 2 items. -/
theorem c2_bounded_queue_witness :
    (initState cfgA ()).q.length ≤ cfgA.maxQueueSize ∧
    (exec cfgA opsA (initState cfgA ())).q.length ≤ cfgA.maxQueueSize :=
  ⟨by decide, c2_bounded_queue cfgA (initState cfgA ()) opsA (by decide)⟩

/-- C4: a sequence of `log()` calls whose submissions are `items`, with the
consumer interleaved arbitrarily and no submission dropped, followed by
`shutdown()`, persists exactly `items.length` lines in submission order
(the queue appends at the back, the consumer pops the front, nothing is
reordered or deduplicated). -/
theorem c4_fifo_single_producer {σ : Type} (cfg : Config σ) (p0 : σ)
    (items : List Item) (ops : List Op)
    (hrot : ∀ u, (cfg.policy.shouldRotate u).1 = false)
    (hopen : cfg.openOk (cfg.policy.nextFileName p0).1 = true)
    (_hsub : submitsOf ops = items)
    (hacc : acceptedF cfg (initState cfg p0) ops = items) :
    (shutdownW cfg (exec cfg ops (initState cfg p0))).sink.files =
      [((cfg.policy.nextFileName p0).1, items.map (format cfg))] := by
  have := (noRot_shutdown_spec cfg p0 hrot hopen ops).1
  rw [hacc] at this
  exact this

/-- C4 witness: three submissions with one consumer iteration interleaved;
the file holds the three lines in submission order. -/
theorem c4_fifo_single_producer_witness :
    submitsOf [Op.submit "a" 1, Op.consume, Op.submit "b" 2, Op.submit "c" 3] =
      [⟨"a", 1⟩, ⟨"b", 2⟩, ⟨"c", 3⟩] ∧
    (shutdownW cfgA
      (exec cfgA [Op.submit "a" 1, Op.consume, Op.submit "b" 2, Op.submit "c" 3]
        (initState cfgA ()))).sink.files =
      [("f", ["[1] a", "[2] b", "[3] c"])] :=
  ⟨by decide,
   c4_fifo_single_producer cfgA () [⟨"a", 1⟩, ⟨"b", 2⟩, ⟨"c", 3⟩]
     [Op.submit "a" 1, Op.consume, Op.submit "b" 2, Op.submit "c" 3]
     (fun _ => rfl) rfl (by decide) (by decide)⟩

/-- C3: when the queue already holds `maxQueueSize` items, the drop-newest
policy applies: the incoming item is discarded and the writer state is left
exactly as it was (the queued items are retained), and the push guard — the
spec's `submit` result — is false; and in Scenario A (`maxQueueSize = 2`,
three submissions with the consumer paused) the sink ends up holding the
first two messages only. -/
theorem c3_drop_newest :
    (∀ (σ : Type) (cfg : Config σ) (s : LoggerState σ) (m : String) (t : Nat),
      s.q.length ≥ cfg.maxQueueSize →
        log cfg s m t = s ∧ logAccepts cfg s = false) ∧
    (shutdownW cfgA (exec cfgA opsA (initState cfgA ()))).sink.files =
      [("f", ["[1] a", "[2] b"])] := by
  constructor
  · intro σ cfg s m t hfull
    constructor
    · unfold log
      simp [hfull]
    · unfold logAccepts
      simp
      omega
  · decide

/-- The writer state of Scenario A after the first two submissions: the
queue is at capacity. -/
def sFullA : LoggerState Unit :=
  { q := [⟨"a", 1⟩, ⟨"b", 2⟩], stopping := false,
    sink := { pol := (), files := [("f", [])], currentFile := "f",
              fileOpen := true } }

/-- C3 witness: submitting a third message to the full Scenario A queue. -/
theorem c3_drop_newest_witness :
    sFullA.q.length ≥ cfgA.maxQueueSize ∧
    (log cfgA sFullA "c" 3 = sFullA ∧ logAccepts cfgA sFullA = false) :=
  ⟨by decide, c3_drop_newest.1 Unit cfgA sFullA "c" 3 (by decide)⟩

/-- C6 counterexample: the claim says the drop is observable through a
`droppedCount()` counter returning 1 after Scenario A's third submission.
But `AsyncFileLogger` has no dropped-item counter at all: the writer state
after the three submissions (one drop) is literally identical to the state
after only the first two (no drop), so no observer of the writer can return
1 on one and 0 on the other — the required counter cannot exist. -/
theorem c6_counterexample :
    exec cfgA opsA (initState cfgA ()) =
      exec cfgA [.submit "a" 1, .submit "b" 2] (initState cfgA ()) := by
  decide

/-- C6 amended: an item dropped because the queue is full is a silent loss —
`log` returns leaving the writer state completely unchanged and surfaces no
exception (it is a total function) — and the code maintains no drop counter,
so the drop is not observable from the writer: Scenario A's three-submission
run ends in the same state as its two-submission run. -/
theorem c6_silent_drop :
    (∀ (σ : Type) (cfg : Config σ) (s : LoggerState σ) (m : String) (t : Nat),
      s.q.length ≥ cfg.maxQueueSize → log cfg s m t = s) ∧
    exec cfgA opsA (initState cfgA ()) =
      exec cfgA [.submit "a" 1, .submit "b" 2] (initState cfgA ()) := by
  constructor
  · intro σ cfg s m t hfull
    unfold log
    simp [hfull]
  · decide

/-- C6 witness: the silent drop applied to the full Scenario A state. -/
theorem c6_silent_drop_witness :
    sFullA.q.length ≥ cfgA.maxQueueSize ∧ log cfgA sFullA "c" 3 = sFullA :=
  ⟨by decide, c6_silent_drop.1 Unit cfgA sFullA "c" 3 (by decide)⟩

/-- Modelled from the spec: `drain()` removes and returns all currently
queued items in FIFO order in one critical section; the consumer then
writes them out in that order. -/
def drainBatch (cfg : Config σ) (s : LoggerState σ) : LoggerState σ :=
  { q := [], stopping := s.stopping, sink := writeList cfg s.sink s.q }

/-- C9: the implementation's per-item removal loop (pop one item under the
lock, release it, write, re-acquire) ends in exactly the state of the
spec's batch drain (remove the whole queue in one critical section, then
write the items in order): the same items are written, in the same order. -/
theorem c9_drain_refinement {σ : Type} (cfg : Config σ) (s : LoggerState σ) :
    drainAll cfg s = drainBatch cfg s :=
  drainAll_eq_writeList cfg s

/-- The observable side effects of the logger: waking the consumer
(`queue_cv.notify_one`), attempting to open a file (with the outcome),
closing the file, writing a line to a file, and — so that the spec's
requirement is expressible at all — a diagnostic message on a fallback
error channel.  `AsyncFileLogger` contains no code emitting the latter. -/
inductive Event where
  | notify : Event
  | openAttempt : String → Bool → Event
  | closed : Event
  | wrote : String → String → Event
  | diag : String → Event
deriving DecidableEq

def Event.isDiag : Event → Bool
  | .diag _ => true
  | _ => false

def Event.isWrote : Event → Bool
  | .wrote _ _ => true
  | _ => false

/-- `rotateNow` with its observable actions recorded: a close when a file
was open, then the attempt to open the next file.  No diagnostic is emitted
on failure (`// Could add error handling if open fails`). -/
def rotateNowEv (cfg : Config σ) (w : SinkState σ) :
    SinkState σ × List Event :=
  (rotateNow cfg w,
   (if w.fileOpen then [Event.closed] else []) ++
     [Event.openAttempt (cfg.policy.nextFileName w.pol).1
        (cfg.openOk (cfg.policy.nextFileName w.pol).1)])

/-- The observable actions of `maybeRotate`. -/
def maybeRotateEv (cfg : Config σ) (w : SinkState σ) :
    SinkState σ × List Event :=
  (maybeRotate cfg w,
   if (cfg.policy.shouldRotate w.pol).1 then
     (rotateNowEv cfg { w with pol := (cfg.policy.shouldRotate w.pol).2 }).2
   else [])

/-- The observable actions of `ensureOpen`. -/
def ensureOpenEv (cfg : Config σ) (w : SinkState σ) :
    SinkState σ × List Event :=
  (ensureOpen cfg w, if w.fileOpen then [] else (rotateNowEv cfg w).2)

/-- The observable actions of `writeLine`: a write event when the stream is
open, nothing when it is not (the `operator<<` on a failed stream is
silently ignored). -/
def writeLineEv (cfg : Config σ) (w : SinkState σ) (line : String) :
    SinkState σ × List Event :=
  (writeLine cfg w line,
   if w.fileOpen then [Event.wrote w.currentFile line] else [])

/-- The worker's per-item processing with its observable actions recorded,
retracing the three steps of `writeItem`. -/
def writeItemEv (cfg : Config σ) (w : SinkState σ) (it : Item) :
    SinkState σ × List Event :=
  (writeItem cfg w it,
   (maybeRotateEv cfg w).2 ++
     (ensureOpenEv cfg (maybeRotate cfg w)).2 ++
       (writeLineEv cfg (ensureOpen cfg (maybeRotate cfg w)) (format cfg it)).2)

/-- The instrumentation is faithful: its state component is `writeItem`. -/
theorem writeItemEv_fst (cfg : Config σ) (w : SinkState σ) (it : Item) :
    (writeItemEv cfg w it).1 = writeItem cfg w it := rfl

/-- `log` with its observable actions recorded: the overflow branch returns
without waking anyone; a successful push is followed by one
`queue_cv.notify_one()`. -/
def logEv (cfg : Config σ) (s : LoggerState σ) (msg : String) (ts : Nat) :
    LoggerState σ × List Event :=
  if s.q.length ≥ cfg.maxQueueSize then (s, [])
  else ({ s with q := s.q ++ [⟨msg, ts⟩] }, [Event.notify])

/-- The instrumentation is faithful: its state component is `log`. -/
theorem logEv_fst (cfg : Config σ) (s : LoggerState σ) (m : String) (t : Nat) :
    (logEv cfg s m t).1 = log cfg s m t := by
  unfold logEv log
  split <;> rfl

/-- Writing a list of items with all observable actions recorded. -/
def writeListEv (cfg : Config σ) (w : SinkState σ) :
    List Item → SinkState σ × List Event
  | [] => (w, [])
  | it :: rest =>
      ((writeListEv cfg (writeItemEv cfg w it).1 rest).1,
       (writeItemEv cfg w it).2 ++
         (writeListEv cfg (writeItemEv cfg w it).1 rest).2)

/-- C10: a `log(msg)` call on a full queue leaves the writer's entire state
unchanged — nothing is enqueued, the queued items, the sink, the current
file name are all untouched — and the condition variable is not notified;
the notification happens exactly on a successful enqueue. -/
theorem c10_log_frame {σ : Type} (cfg : Config σ) (s : LoggerState σ)
    (m : String) (t : Nat) :
    (s.q.length ≥ cfg.maxQueueSize → logEv cfg s m t = (s, [])) ∧
    (s.q.length < cfg.maxQueueSize →
      logEv cfg s m t = ({ s with q := s.q ++ [⟨m, t⟩] }, [Event.notify])) := by
  constructor
  · intro h
    unfold logEv
    simp [h]
  · intro h
    unfold logEv
    have hnot : ¬ s.q.length ≥ cfg.maxQueueSize := by omega
    simp [hnot]

/-- C10 witness: the full Scenario A queue rejects silently; the empty
initial queue accepts and notifies. -/
theorem c10_log_frame_witness :
    logEv cfgA sFullA "c" 3 = (sFullA, []) ∧
    logEv cfgA (initState cfgA ()) "a" 1 =
      ({ initState cfgA () with q := [⟨"a", 1⟩] }, [Event.notify]) :=
  ⟨(c10_log_frame cfgA sFullA "c" 3).1 (by decide),
   (c10_log_frame cfgA (initState cfgA ()) "a" 1).2 (by decide)⟩

/-- Scenario A's configuration over a file system in which every open
fails: a persistently broken sink. -/
def cfgFail : Config Unit :=
  { policy := constPolicy "f", maxQueueSize := 2,
    openOk := fun _ => false, formatTs := fun n => Nat.repr n }

/-- C7 counterexample: processing one queued item with a persistently
broken sink (the open fails) emits exactly one failed open attempt and
nothing else — in particular no `Event.diag` on any fallback diagnostic
channel, contrary to the claim — while the item is dropped (no file gains a
line) and the sink stays closed. -/
theorem c7_counterexample :
    (writeItemEv cfgFail (initState cfgFail ()).sink ⟨"a", 1⟩).2 =
      [Event.openAttempt "f" false] ∧
    (writeItemEv cfgFail (initState cfgFail ()).sink ⟨"a", 1⟩).1.files = [] ∧
    (writeItemEv cfgFail (initState cfgFail ()).sink ⟨"a", 1⟩).2.filter
      Event.isDiag = [] := by
  decide

theorem writeItemEv_fail {σ : Type} (cfg : Config σ)
    (hfail : ∀ n, cfg.openOk n = false)
    (w : SinkState σ) (hclosed : w.fileOpen = false) (it : Item) :
    (writeItemEv cfg w it).1.files = w.files ∧
    (writeItemEv cfg w it).1.fileOpen = false ∧
    (writeItemEv cfg w it).2.filter Event.isDiag = [] ∧
    (writeItemEv cfg w it).2.filter Event.isWrote = [] := by
  unfold writeItemEv writeItem writeLineEv writeLine ensureOpenEv ensureOpen
    maybeRotateEv maybeRotate rotateNowEv rotateNow
  cases hsr : (cfg.policy.shouldRotate w.pol).1 <;>
    simp [hsr, hfail, hclosed, Event.isDiag, Event.isWrote]

/-- C7 amended: with a persistently unavailable sink (every open fails),
the failure is swallowed silently — the code emits no fallback-channel
diagnostic — each affected item is dropped (no file gains a line, nothing
is written), and the consumer loop keeps going: it processes every queued
item and the drain still empties the queue, so the worker neither
terminates nor deadlocks because of the sink. -/
theorem c7_broken_sink_swallowed {σ : Type} (cfg : Config σ)
    (w : SinkState σ) (items : List Item)
    (hfail : ∀ n, cfg.openOk n = false) (hclosed : w.fileOpen = false) :
    (writeListEv cfg w items).1.files = w.files ∧
    (writeListEv cfg w items).1.fileOpen = false ∧
    (writeListEv cfg w items).2.filter Event.isDiag = [] ∧
    (writeListEv cfg w items).2.filter Event.isWrote = [] ∧
    ∀ s : LoggerState σ, (drainAll cfg s).q = [] := by
  refine ⟨?_, ?_, ?_, ?_, fun s => drainAll_q cfg s⟩ <;>
  · induction items generalizing w with
    | nil => simp_all [writeListEv]
    | cons it rest ih =>
        obtain ⟨f1, f2, f3, f4⟩ := writeItemEv_fail cfg hfail w hclosed it
        simp [writeListEv, List.filter_append, f1, f2, f3, f4,
          ih (writeItemEv cfg w it).1 f2]

/-- C7 witness: two items against the broken-sink Scenario A
configuration. -/
theorem c7_broken_sink_swallowed_witness :
    (writeListEv cfgFail (initState cfgFail ()).sink
        [⟨"a", 1⟩, ⟨"b", 2⟩]).1.files = [] ∧
    (writeListEv cfgFail (initState cfgFail ()).sink
        [⟨"a", 1⟩, ⟨"b", 2⟩]).1.fileOpen = false ∧
    (writeListEv cfgFail (initState cfgFail ()).sink
        [⟨"a", 1⟩, ⟨"b", 2⟩]).2.filter Event.isDiag = [] ∧
    (writeListEv cfgFail (initState cfgFail ()).sink
        [⟨"a", 1⟩, ⟨"b", 2⟩]).2.filter Event.isWrote = [] ∧
    ∀ s : LoggerState Unit, (drainAll cfgFail s).q = [] :=
  c7_broken_sink_swallowed cfgFail (initState cfgFail ()).sink
    [⟨"a", 1⟩, ⟨"b", 2⟩] (fun _ => rfl) rfl

/-- Every line of every file satisfies the given line predicate. -/
def FilesOrigin (Q : String → Prop)
    (files : List (String × List String)) : Prop :=
  ∀ e ∈ files, ∀ l ∈ e.2, Q l

theorem touch_origin (Q : String → Prop) (files) (name : String)
    (h : FilesOrigin Q files) : FilesOrigin Q (touch files name) := by
  unfold touch
  split
  · exact h
  · intro e he l hl
    rcases List.mem_append.1 he with h1 | h1
    · exact h e h1 l hl
    · simp at h1
      rw [h1] at hl
      simp at hl

theorem appendLine_origin (Q : String → Prop) (files) (name line : String)
    (h : FilesOrigin Q files) (hl : Q line) :
    FilesOrigin Q (appendLine files name line) := by
  induction files with
  | nil =>
      intro e he l hml
      simp [appendLine] at he
      rw [he] at hml
      simp at hml
      rw [hml]; exact hl
  | cons e0 rest ih =>
      intro e he l hml
      unfold appendLine at he
      split at he
      · rcases List.mem_cons.1 he with h1 | h1
        · rw [h1] at hml
          simp at hml
          rcases hml with h2 | h2
          · exact h e0 (List.mem_cons_self e0 rest) l h2
          · rw [h2]; exact hl
        · exact h e (List.mem_cons_of_mem e0 h1) l hml
      · rcases List.mem_cons.1 he with h1 | h1
        · rw [h1] at hml
          exact h e0 (List.mem_cons_self e0 rest) l hml
        · exact ih (fun e' he' => h e' (List.mem_cons_of_mem e0 he')) e h1 l hml

theorem rotateNow_origin {σ : Type} (cfg : Config σ) (Q : String → Prop)
    (w : SinkState σ) (h : FilesOrigin Q w.files) :
    FilesOrigin Q (rotateNow cfg w).files := by
  unfold rotateNow
  simp only []
  split
  · exact touch_origin Q w.files _ h
  · exact h

theorem maybeRotate_origin {σ : Type} (cfg : Config σ) (Q : String → Prop)
    (w : SinkState σ) (h : FilesOrigin Q w.files) :
    FilesOrigin Q (maybeRotate cfg w).files := by
  unfold maybeRotate
  simp only []
  split
  · exact rotateNow_origin cfg Q _ h
  · exact h

theorem ensureOpen_origin {σ : Type} (cfg : Config σ) (Q : String → Prop)
    (w : SinkState σ) (h : FilesOrigin Q w.files) :
    FilesOrigin Q (ensureOpen cfg w).files := by
  unfold ensureOpen
  split
  · exact h
  · exact rotateNow_origin cfg Q _ h

theorem writeLine_origin {σ : Type} (cfg : Config σ) (Q : String → Prop)
    (w : SinkState σ) (line : String) (h : FilesOrigin Q w.files)
    (hl : Q line) : FilesOrigin Q (writeLine cfg w line).files := by
  unfold writeLine
  split
  · exact appendLine_origin Q _ _ _ h hl
  · exact h

theorem writeItem_origin {σ : Type} (cfg : Config σ) (Q : String → Prop)
    (w : SinkState σ) (it : Item) (h : FilesOrigin Q w.files)
    (hit : Q (format cfg it)) :
    FilesOrigin Q (writeItem cfg w it).files :=
  writeLine_origin cfg Q _ _
    (ensureOpen_origin cfg Q _ (maybeRotate_origin cfg Q w h)) hit

theorem writeList_origin {σ : Type} (cfg : Config σ) (Q : String → Prop) :
    ∀ (items : List Item) (w : SinkState σ),
      FilesOrigin Q w.files → (∀ it ∈ items, Q (format cfg it)) →
      FilesOrigin Q (writeList cfg w items).files := by
  intro items
  induction items with
  | nil => intro w h _; exact h
  | cons it rest ih =>
      intro w h hall
      rw [writeList]
      exact ih (writeItem cfg w it)
        (writeItem_origin cfg Q w it h (hall it (List.mem_cons_self it rest)))
        (fun x hx => hall x (List.mem_cons_of_mem it hx))

/-- Trace invariant for the provenance of lines: if every queued item and
every written line comes from the predicate and every submission of the
trace satisfies it, the same holds in every reachable state. -/
theorem exec_origin {σ : Type} (cfg : Config σ) (P : Item → Prop) :
    ∀ (ops : List Op) (s : LoggerState σ),
      (∀ it ∈ s.q, P it) →
      FilesOrigin (fun l => ∃ it, P it ∧ l = format cfg it) s.sink.files →
      (∀ m t, Op.submit m t ∈ ops → P ⟨m, t⟩) →
      (∀ it ∈ (exec cfg ops s).q, P it) ∧
      FilesOrigin (fun l => ∃ it, P it ∧ l = format cfg it)
        (exec cfg ops s).sink.files := by
  intro ops
  induction ops with
  | nil => intro s hq hf _; exact ⟨hq, hf⟩
  | cons op rest ih =>
      intro s hq hf hops
      cases op with
      | submit m t =>
          rw [exec, step]
          have hrest : ∀ m' t', Op.submit m' t' ∈ rest → P ⟨m', t'⟩ :=
            fun m' t' hm => hops m' t' (List.mem_cons_of_mem _ hm)
          unfold log
          split
          · exact ih s hq hf hrest
          · refine ih _ ?_ hf hrest
            intro it hit
            rcases List.mem_append.1 hit with h1 | h1
            · exact hq it h1
            · simp at h1
              rw [h1]
              exact hops m t (List.mem_cons_self _ _)
      | consume =>
          rw [exec, step]
          have hrest : ∀ m' t', Op.submit m' t' ∈ rest → P ⟨m', t'⟩ :=
            fun m' t' hm => hops m' t' (List.mem_cons_of_mem _ hm)
          unfold consumeOne
          split
          · exact ih s hq hf hrest
          · rename_i it tl heq
            refine ih _ ?_ ?_ hrest
            · intro x hx
              exact hq x (by rw [heq]; exact List.mem_cons_of_mem it hx)
            · exact writeItem_origin cfg _ s.sink it hf
                ⟨it, hq it (by rw [heq]; exact List.mem_cons_self it tl), rfl⟩

/-- C8: every persisted line, in any file, after any interleaving of
submissions and consumer iterations followed by shutdown, is exactly
`"[" ++ formattedTimestamp ++ "] " ++ message` for some submission of the
trace — and the timestamp rendered is the one the producer captured when it
submitted, not the time of the write (the consumer has no other timestamp:
the item carries the submission instant through the queue). -/
theorem c8_line_format {σ : Type} (cfg : Config σ) (p0 : σ) (ops : List Op)
    (n : String) (ls : List String) (line : String)
    (hmem : (n, ls) ∈
      (shutdownW cfg (exec cfg ops (initState cfg p0))).sink.files)
    (hline : line ∈ ls) :
    ∃ m t, Op.submit m t ∈ ops ∧ line = "[" ++ cfg.formatTs t ++ "] " ++ m := by
  have hinitf : FilesOrigin
      (fun l => ∃ it, Op.submit it.message it.ts ∈ ops ∧ l = format cfg it)
      (initState cfg p0).sink.files := by
    intro e he l hl
    simp only [initState] at he
    split at he
    · simp [touch] at he
      rw [he] at hl
      simp at hl
    · simp at he
  obtain ⟨hq1, hf1⟩ :=
    exec_origin cfg (fun it => Op.submit it.message it.ts ∈ ops) ops
      (initState cfg p0) (by intro it hit; simp [initState] at hit) hinitf
      (fun m t hm => hm)
  have hfinal : FilesOrigin
      (fun l => ∃ it, Op.submit it.message it.ts ∈ ops ∧ l = format cfg it)
      (shutdownW cfg (exec cfg ops (initState cfg p0))).sink.files := by
    rw [shutdownW, drainAll_eq_writeList]
    simp only [closeFile]
    exact writeList_origin cfg _ (exec cfg ops (initState cfg p0)).q
      (exec cfg ops (initState cfg p0)).sink hf1
      (fun it hit => ⟨it, hq1 it hit, rfl⟩)
  obtain ⟨it, hsubm, hfmt⟩ := hfinal (n, ls) hmem line hline
  exact ⟨it.message, it.ts, hsubm, hfmt⟩

/-- C8 witness: a single submission with timestamp 7; the one persisted
line has the mandated shape with the submission-time timestamp. -/
theorem c8_line_format_witness :
    ∃ m t, Op.submit m t ∈ [Op.submit "a" 7] ∧
      "[7] a" = "[" ++ cfgA.formatTs t ++ "] " ++ m :=
  c8_line_format cfgA () [Op.submit "a" 7] "f" ["[7] a"] "[7] a"
    (by decide) (by decide)

/-- Evaluation of `writeItem` when the policy does not request rotation and
a file is open: the policy state advances and the line lands in the current
file. -/
theorem writeItem_eval_stay {σ : Type} (cfg : Config σ) (w : SinkState σ)
    (it : Item) (p' : σ)
    (hsr : cfg.policy.shouldRotate w.pol = (false, p'))
    (hopen : w.fileOpen = true) :
    writeItem cfg w it =
      { w with pol := p',
               files := appendLine w.files w.currentFile (format cfg it) } := by
  unfold writeItem writeLine ensureOpen maybeRotate
  simp [hsr, hopen]

/-- Evaluation of `writeItem` when the policy requests rotation and the open
of the next file succeeds: the current file is closed, the next one opened
in append mode, and the line lands there. -/
theorem writeItem_eval_rotate {σ : Type} (cfg : Config σ) (w : SinkState σ)
    (it : Item) (p' : σ)
    (hsr : cfg.policy.shouldRotate w.pol = (true, p'))
    (hopen : cfg.openOk (cfg.policy.nextFileName p').1 = true) :
    writeItem cfg w it =
      { pol := (cfg.policy.nextFileName p').2,
        files := appendLine (touch w.files (cfg.policy.nextFileName p').1)
          (cfg.policy.nextFileName p').1 (format cfg it),
        currentFile := (cfg.policy.nextFileName p').1,
        fileOpen := true } := by
  unfold writeItem writeLine ensureOpen maybeRotate rotateNow
  simp [hsr, hopen]

theorem touch_fresh (files : List (String × List String)) (name : String)
    (h : ∀ e ∈ files, e.1 ≠ name) :
    touch files name = files ++ [(name, [])] := by
  have hc : (files.any (fun e => e.1 = name)) = false := by
    rw [List.any_eq_false]
    intro e he
    simpa using h e he
  simp [touch, hc]

theorem appendLine_last (A : List (String × List String)) (n : String)
    (ls : List String) (l : String) (h : ∀ e ∈ A, e.1 ≠ n) :
    appendLine (A ++ [(n, ls)]) n l = A ++ [(n, ls ++ [l])] := by
  induction A with
  | nil => simp [appendLine]
  | cons e0 A ih =>
      have h0 : e0.1 ≠ n := h e0 (List.mem_cons_self _ _)
      simp only [List.cons_append, appendLine, if_neg h0]
      exact congrArg (e0 :: ·) (ih (fun e he => h e (List.mem_cons_of_mem _ he)))

/-- Modelled from the spec: a `RotationPolicy` that requests rotation after
every `K` items (the policy of P5 and Scenario C; the source ships only the
time-based policy, so the item-count policy quantified over by the spec is
built here from the spec's words).  Its state counts the items written to
the current sink and the index used to name the next sink. -/
def countPolicy (fname : Nat → String) (K : Nat) :
    RotationPolicy (Nat × Nat) where
  shouldRotate := fun ci =>
    if K < ci.1 + 1 then (true, (1, ci.2)) else (false, (ci.1 + 1, ci.2))
  nextFileName := fun ci => (fname ci.2, (ci.1, ci.2 + 1))

/-- A configuration running the item-count rotation policy over a file
system where every open succeeds. -/
def cfgRot (fname : Nat → String) (K maxQ : Nat) (fmt : Nat → String) :
    Config (Nat × Nat) :=
  { policy := countPolicy fname K, maxQueueSize := maxQ,
    openOk := fun _ => true, formatTs := fmt }

/-- Invariant of the drain under the item-count policy, after the lines `L`
have been written: `t` sinks are full, the current sink `fname t` holds the
last `r` lines, and the files partition `L` into chunks of `K`. -/
def rotInv (fname : Nat → String) (K : Nat) (L : List String) (t r : Nat)
    (w : SinkState (Nat × Nat)) : Prop :=
  w.pol = (r, t + 1) ∧ w.currentFile = fname t ∧ w.fileOpen = true ∧
  w.files = (List.range (t + 1)).map
    (fun j => (fname j, (L.drop (j * K)).take K)) ∧
  L.length = t * K + r ∧ r ≤ K ∧ (r = 0 → t = 0 ∧ L = [])

theorem chunk_stable (L : List String) (l : String) (p K : Nat)
    (h : p + K ≤ L.length) :
    ((L ++ [l]).drop p).take K = (L.drop p).take K := by
  rw [List.drop_append_of_le_length (by omega)]
  rw [List.take_append_of_le_length (by simp [List.length_drop]; omega)]

theorem rotInv_step_stay (fname : Nat → String) (K maxQ : Nat)
    (fmt : Nat → String) (hinj : ∀ a b, fname a = fname b → a = b)
    (L : List String) (t r : Nat) (w : SinkState (Nat × Nat)) (it : Item)
    (hinv : rotInv fname K L t r w) (hlt : r < K) :
    rotInv fname K (L ++ [format (cfgRot fname K maxQ fmt) it]) t (r + 1)
      (writeItem (cfgRot fname K maxQ fmt) w it) := by
  obtain ⟨hp, hc, ho, hf, hlen, hrK, hr0⟩ := hinv
  have hsr : (cfgRot fname K maxQ fmt).policy.shouldRotate w.pol =
      (false, (r + 1, t + 1)) := by
    rw [hp]
    unfold cfgRot countPolicy
    simp only []
    rw [if_neg (by omega)]
  rw [writeItem_eval_stay _ w it _ hsr ho]
  refine ⟨rfl, hc, ho, ?_, ?_, by omega,
    fun h => absurd h (Nat.succ_ne_zero r)⟩
  · have hfresh : ∀ e ∈ (List.range t).map
        (fun j => (fname j, (L.drop (j * K)).take K)), e.1 ≠ fname t := by
      intro e he
      simp only [List.mem_map, List.mem_range] at he
      obtain ⟨j, hj, hje⟩ := he
      rw [← hje]
      intro hcon
      exact absurd (hinj j t hcon) (by omega)
    have hsplit : w.files =
        (List.range t).map (fun j => (fname j, (L.drop (j * K)).take K)) ++
          [(fname t, (L.drop (t * K)).take K)] := by
      rw [hf, List.range_succ, List.map_append]
      simp
    show appendLine w.files w.currentFile _ = _
    rw [hc, hsplit, appendLine_last _ _ _ _ hfresh, List.range_succ,
      List.map_append]
    simp only [List.map_cons, List.map_nil]
    congr 1
    · refine List.map_congr_left (fun j hj => ?_)
      simp only [List.mem_range] at hj
      have hjk : j * K + K ≤ L.length := by
        have h1 : (j + 1) * K ≤ t * K := Nat.mul_le_mul_right K (by omega)
        have h2 : (j + 1) * K = j * K + K := by ring
        omega
      rw [chunk_stable L _ (j * K) K hjk]
    · have htk : t * K ≤ L.length := by omega
      have hdl : (L.drop (t * K)).length = r := by
        simp only [List.length_drop]
        omega
      rw [List.drop_append_of_le_length htk]
      rw [List.take_of_length_le (by simp [hdl]; omega : (L.drop (t * K)).length ≤ K)]
      rw [List.take_of_length_le
        (by simp [hdl] ; omega : (L.drop (t * K) ++ [format (cfgRot fname K maxQ fmt) it]).length ≤ K)]
  · simp only [List.length_append, List.length_cons, List.length_nil]
    omega

theorem rotInv_step_rot (fname : Nat → String) (K maxQ : Nat)
    (fmt : Nat → String) (hK : 1 ≤ K)
    (hinj : ∀ a b, fname a = fname b → a = b)
    (L : List String) (t : Nat) (w : SinkState (Nat × Nat)) (it : Item)
    (hinv : rotInv fname K L t K w) :
    rotInv fname K (L ++ [format (cfgRot fname K maxQ fmt) it]) (t + 1) 1
      (writeItem (cfgRot fname K maxQ fmt) w it) := by
  obtain ⟨hp, hc, ho, hf, hlen, hrK, hr0⟩ := hinv
  have hsr : (cfgRot fname K maxQ fmt).policy.shouldRotate w.pol =
      (true, (1, t + 1)) := by
    rw [hp]
    unfold cfgRot countPolicy
    simp only []
    rw [if_pos (by omega)]
  rw [writeItem_eval_rotate _ w it _ hsr rfl]
  have hnf : (cfgRot fname K maxQ fmt).policy.nextFileName (1, t + 1) =
      (fname (t + 1), (1, t + 2)) := rfl
  rw [hnf]
  have hfresh : ∀ e ∈ w.files, e.1 ≠ fname (t + 1) := by
    intro e he
    rw [hf] at he
    simp only [List.mem_map, List.mem_range] at he
    obtain ⟨j, hj, hje⟩ := he
    rw [← hje]
    intro hcon
    exact absurd (hinj j (t + 1) hcon) (by omega)
  have hmulK : (t + 1) * K = L.length := by
    have e1 : (t + 1) * K = t * K + K := by ring
    omega
  refine ⟨rfl, rfl, rfl, ?_, ?_, hK, fun h => absurd h Nat.one_ne_zero⟩
  · show appendLine (touch w.files (fname (t + 1))) (fname (t + 1)) _ = _
    rw [touch_fresh _ _ hfresh, appendLine_last _ _ _ _ hfresh,
      List.range_succ, List.map_append]
    simp only [List.map_cons, List.map_nil, List.nil_append]
    congr 1
    · rw [hf]
      refine List.map_congr_left (fun j hj => ?_)
      simp only [List.mem_range] at hj
      have hjk : j * K + K ≤ L.length := by
        have h1 : (j + 1) * K ≤ (t + 1) * K := Nat.mul_le_mul_right K (by omega)
        have h2 : (j + 1) * K = j * K + K := by ring
        omega
      rw [chunk_stable L _ (j * K) K hjk]
    · rw [hmulK, List.drop_left]
      rw [List.take_of_length_le (by simp; omega)]
  · simp only [List.length_append, List.length_cons, List.length_nil]
    have e1 : (t + 1) * K = t * K + K := by ring
    omega

theorem writeList_rotInv (fname : Nat → String) (K maxQ : Nat)
    (fmt : Nat → String) (hK : 1 ≤ K)
    (hinj : ∀ a b, fname a = fname b → a = b) :
    ∀ (items : List Item) (L : List String) (t r : Nat)
      (w : SinkState (Nat × Nat)),
      rotInv fname K L t r w →
      ∃ t' r', rotInv fname K
        (L ++ items.map (format (cfgRot fname K maxQ fmt))) t' r'
        (writeList (cfgRot fname K maxQ fmt) w items) := by
  intro items
  induction items with
  | nil =>
      intro L t r w h
      exact ⟨t, r, by simpa [writeList] using h⟩
  | cons it rest ih =>
      intro L t r w h
      rw [writeList]
      rcases Nat.lt_or_ge r K with hlt | hge
      · obtain ⟨t', r', h'⟩ := ih _ t (r + 1) _
          (rotInv_step_stay fname K maxQ fmt hinj L t r w it h hlt)
        exact ⟨t', r', by simpa [List.append_assoc] using h'⟩
      · have heq : r = K := le_antisymm h.2.2.2.2.2.1 hge
        subst heq
        obtain ⟨t', r', h'⟩ := ih _ (t + 1) 1 _
          (rotInv_step_rot fname r maxQ fmt hK hinj L t w it h)
        exact ⟨t', r', by simpa [List.append_assoc] using h'⟩

/-- The trace of one producer submitting the given items in order. -/
def submitOps (items : List Item) : List Op :=
  items.map (fun it => Op.submit it.message it.ts)

/-- Submissions into a queue with enough room are all accepted and simply
append to the queue. -/
theorem exec_submits {σ : Type} (cfg : Config σ) :
    ∀ (items : List Item) (s : LoggerState σ),
      s.q.length + items.length ≤ cfg.maxQueueSize →
      exec cfg (submitOps items) s = { s with q := s.q ++ items } := by
  intro items
  induction items with
  | nil =>
      intro s h
      cases s
      simp [submitOps, exec]
  | cons it rest ih =>
      intro s h
      simp only [submitOps, List.map_cons, exec, step]
      have hlog : log cfg s it.message it.ts = { s with q := s.q ++ [it] } := by
        unfold log
        rw [if_neg (by simp at h ⊢; omega)]
      rw [hlog]
      have := ih { s with q := s.q ++ [it] }
        (by simp at h ⊢; omega)
      simpa [submitOps, List.append_assoc] using this

theorem ceil_div_helper (t r K : Nat) (hK : 1 ≤ K) (h1 : 1 ≤ r)
    (h2 : r ≤ K) : (t * K + r + K - 1) / K = t + 1 := by
  have e1 : (t + 1) * K = t * K + K := by ring
  have e2 : t * K + r + K - 1 = (r - 1) + (t + 1) * K := by omega
  rw [e2, Nat.add_mul_div_right _ _ (by omega : 0 < K),
    Nat.div_eq_of_lt (by omega)]
  omega

/-- C5: with the item-count rotation policy rotating after every `K` items
(distinct file names), submitting `N ≥ 1` items (no overflow: `N` within
the queue bound, consumer paused) and then shutting down partitions the
output across `ceil(N/K)` sinks: writing `N = t*K + r` with `1 ≤ r ≤ K`,
there are `t + 1 = (N + K - 1) / K` sinks, sink `j` holding exactly the
`j`-th chunk of `K` consecutive formatted items (the last sink holding the
final `r ≤ K`), in submission order. -/
theorem c5_rotation_partition (fname : Nat → String) (K maxQ : Nat)
    (fmt : Nat → String) (items : List Item)
    (hK : 1 ≤ K) (hne : items ≠ []) (hroom : items.length ≤ maxQ)
    (hinj : ∀ a b, fname a = fname b → a = b) :
    ∃ t r, items.length = t * K + r ∧ 1 ≤ r ∧ r ≤ K ∧
      t + 1 = (items.length + K - 1) / K ∧
      (shutdownW (cfgRot fname K maxQ fmt)
        (exec (cfgRot fname K maxQ fmt) (submitOps items)
          (initState (cfgRot fname K maxQ fmt) (0, 0)))).sink.files =
        (List.range (t + 1)).map
          (fun j => (fname j,
            ((items.map (format (cfgRot fname K maxQ fmt))).drop
              (j * K)).take K)) := by
  have hinit : rotInv fname K [] 0 0
      (initState (cfgRot fname K maxQ fmt) (0, 0)).sink := by
    refine ⟨rfl, rfl, rfl, ?_, by simp, Nat.zero_le K, fun _ => ⟨rfl, rfl⟩⟩
    simp [initState, cfgRot, countPolicy, touch, List.range_succ]
  have hexec := exec_submits (cfgRot fname K maxQ fmt) items
    (initState (cfgRot fname K maxQ fmt) (0, 0))
    (by simpa [initState, cfgRot] using hroom)
  rw [hexec, shutdownW, drainAll_eq_writeList]
  obtain ⟨t', r', hfin⟩ :=
    writeList_rotInv fname K maxQ fmt hK hinj items [] 0 0
      (initState (cfgRot fname K maxQ fmt) (0, 0)).sink hinit
  obtain ⟨hp, hc, ho, hf, hlen, hrK, hr0⟩ := hfin
  have hlenN : items.length = t' * K + r' := by simpa using hlen
  have hr1 : 1 ≤ r' := by
    rcases Nat.eq_zero_or_pos r' with h0 | hpos
    · obtain ⟨-, hL⟩ := hr0 h0
      rw [List.nil_append] at hL
      exact absurd (List.map_eq_nil_iff.mp hL) hne
    · exact hpos
  simp only [List.nil_append] at hf
  refine ⟨t', r', hlenN, hr1, hrK, ?_, ?_⟩
  · rw [hlenN]
    exact (ceil_div_helper t' r' K hK hr1 hrK).symm
  · simp only [closeFile]
    exact hf

/-- Pairwise-distinct file names for the rotation witness. -/
def fnameW : Nat → String := fun i => String.mk (List.replicate i 'g')

theorem fnameW_inj : ∀ a b, fnameW a = fnameW b → a = b := by
  intro a b h
  have h2 := congrArg (fun s => s.data.length) h
  simpa [fnameW] using h2

/-- The twelve submissions of Scenario C. -/
def items12 : List Item :=
  [⟨"m01", 1⟩, ⟨"m02", 2⟩, ⟨"m03", 3⟩, ⟨"m04", 4⟩, ⟨"m05", 5⟩, ⟨"m06", 6⟩,
   ⟨"m07", 7⟩, ⟨"m08", 8⟩, ⟨"m09", 9⟩, ⟨"m10", 10⟩, ⟨"m11", 11⟩,
   ⟨"m12", 12⟩]

/-- C5 witness: Scenario C — rotate every 5 items, submit 12; three sinks
holding 5, 5 and 2 items. -/
theorem c5_rotation_partition_witness :
    items12 ≠ [] ∧ items12.length ≤ 12 ∧
    (∃ t r, items12.length = t * 5 + r ∧ 1 ≤ r ∧ r ≤ 5 ∧
      t + 1 = (items12.length + 5 - 1) / 5 ∧
      (shutdownW (cfgRot fnameW 5 12 Nat.repr)
        (exec (cfgRot fnameW 5 12 Nat.repr) (submitOps items12)
          (initState (cfgRot fnameW 5 12 Nat.repr) (0, 0)))).sink.files =
        (List.range (t + 1)).map
          (fun j => (fnameW j,
            ((items12.map (format (cfgRot fnameW 5 12 Nat.repr))).drop
              (j * 5)).take 5))) :=
  ⟨by decide, by decide,
   c5_rotation_partition fnameW 5 12 Nat.repr items12 (by decide) (by decide)
     (by decide) fnameW_inj⟩
